import Mathlib

/-!
Verification of the hourly campaign dashboard pipeline
(`src/Hourly_Campaign_Dashboard.py`).

The script is a pandas pipeline: raw campaign rows are filtered by the
selected campaigns and dates, aggregated by `groupby(...).sum()`, merged
(left join) with an aggregated sales feed, and extended with hour-over-hour
deltas (`groupby(...).diff()` followed by `fillna(metric column)`) and with
cumulative budget columns (`groupby(...).cumsum()`).

Modelling conventions:
* Dates are modelled as natural numbers (the script compares dates either
  as `datetime.date` objects or as their ISO strings; both orders agree and
  are modelled by the order on `ℕ`).
* Campaign identifiers are likewise modelled as naturals: the script sorts
  them as strings, and the claims depend only on that order being linear.
  Column and metric names, which the script matches by string content,
  stay `String`.
* Numeric metric values are modelled as integers (exact arithmetic).
* A nullable column is `Option ℤ`; `none` is pandas `NaN`.
* `pandas.groupby` with the default `sort=True` emits one row per distinct
  key, keys sorted ascending; this is modelled by `sortedDistinct`.
* `groupby(keys).diff()` computes, for each row, the difference with the
  previous row of the same key group (in frame order), `NaN` when there is
  no such row or when either operand is `NaN`; `fillna(value column)` then
  replaces `NaN` by the row's own value.  This is modelled by `withDelta`.
-/

namespace HourlyDashboard

/-! ### Sorted distinct keys (pandas `groupby` key order) -/

/-- Insert a key into a strictly sorted list, keeping it strictly sorted
(duplicates are dropped). -/
def insertSorted {α : Type} [LinearOrder α] (k : α) : List α → List α
  | [] => [k]
  | x :: xs => if k < x then k :: x :: xs else if k = x then x :: xs else x :: insertSorted k xs

/-- The distinct keys of a list, in ascending order: the key column of a
pandas `groupby(sort=True)` result. -/
def sortedDistinct {α : Type} [LinearOrder α] (l : List α) : List α :=
  l.foldr insertSorted []

lemma mem_insertSorted {α : Type} [LinearOrder α] (a k : α) :
    ∀ l : List α, a ∈ insertSorted k l ↔ a = k ∨ a ∈ l := by
  intro l
  induction l with
  | nil => simp [insertSorted]
  | cons x xs ih =>
    by_cases h1 : k < x
    · simp [insertSorted, h1]
    · by_cases h2 : k = x
      · subst h2; simp [insertSorted, h1]
      · simp only [insertSorted, if_neg h1, if_neg h2, List.mem_cons, ih]
        tauto

lemma pairwise_insertSorted {α : Type} [LinearOrder α] (k : α) :
    ∀ l : List α, l.Pairwise (· < ·) → (insertSorted k l).Pairwise (· < ·) := by
  intro l
  induction l with
  | nil => intro _; simp [insertSorted]
  | cons x xs ih =>
    intro hp
    rcases List.pairwise_cons.mp hp with ⟨hx, hxs⟩
    by_cases h1 : k < x
    · simp only [insertSorted, if_pos h1]
      exact List.pairwise_cons.mpr ⟨by
        intro b hb
        rcases List.mem_cons.mp hb with hb | hb
        · subst hb; exact h1
        · exact lt_trans h1 (hx b hb), hp⟩
    · by_cases h2 : k = x
      · subst h2; simp only [insertSorted, if_neg h1, if_pos rfl]; exact hp
      · have hxk : x < k := by
          rcases lt_trichotomy k x with h | h | h
          · exact absurd h h1
          · exact absurd h h2
          · exact h
        simp only [insertSorted, if_neg h1, if_neg h2]
        refine List.pairwise_cons.mpr ⟨?_, ih hxs⟩
        intro b hb
        rcases (mem_insertSorted b k xs).mp hb with hb | hb
        · subst hb; exact hxk
        · exact hx b hb

lemma sortedDistinct_pairwise {α : Type} [LinearOrder α] (l : List α) :
    (sortedDistinct l).Pairwise (· < ·) := by
  induction l with
  | nil => simp [sortedDistinct]
  | cons x xs ih => exact pairwise_insertSorted x _ ih

lemma sortedDistinct_nodup {α : Type} [LinearOrder α] (l : List α) :
    (sortedDistinct l).Nodup :=
  (sortedDistinct_pairwise l).imp ne_of_lt

lemma mem_sortedDistinct {α : Type} [LinearOrder α] (a : α) (l : List α) :
    a ∈ sortedDistinct l ↔ a ∈ l := by
  induction l with
  | nil => simp [sortedDistinct]
  | cons x xs ih =>
    show a ∈ insertSorted x (sortedDistinct xs) ↔ _
    rw [mem_insertSorted]
    simp [ih]

/-! ### Per-partition delta: `diff()` then `fillna(value column)` -/

/-- One cell of `diff().fillna(value column)`: the difference with the
previous value when both are present, and otherwise — first row of the
partition, or a `NaN` operand — the row's own value (the `fillna`). -/
def deltaCell (prev v : Option ℤ) : Option ℤ :=
  match prev, v with
  | some p, some x => some (x - p)
  | _, _ => v

@[simp] lemma deltaCell_none_left (v : Option ℤ) : deltaCell none v = v := rfl

@[simp] lemma deltaCell_some_some (p x : ℤ) : deltaCell (some p) (some x) = some (x - p) := rfl

lemma deltaCell_none_right (prev : Option ℤ) : deltaCell prev none = none := by
  cases prev <;> rfl

/-- One partition of `groupby(keys)[metric].diff().fillna(metric)`, given
the value of the row just before the partition starts (`none` at the start
of a partition). -/
def diffFill : Option ℤ → List (Option ℤ) → List (Option ℤ)
  | _, [] => []
  | prev, v :: vs => deltaCell prev v :: diffFill v vs

/-- Pure tail deltas: differences with the previous value, all values present. -/
def diffRun : ℤ → List ℤ → List ℤ
  | _, [] => []
  | p, v :: vs => (v - p) :: diffRun v vs

/-- The delta column of one partition whose values are all present:
the first value passes through, later entries are successive differences. -/
def pureDelta : List ℤ → List ℤ
  | [] => []
  | v :: vs => v :: diffRun v vs

lemma diffFill_length (prev : Option ℤ) (vs : List (Option ℤ)) :
    (diffFill prev vs).length = vs.length := by
  induction vs generalizing prev with
  | nil => simp [diffFill]
  | cons v vs ih => simp [diffFill, ih]

lemma diffFill_map_some (p : ℤ) :
    ∀ vs : List ℤ, diffFill (some p) (vs.map some) = (diffRun p vs).map some := by
  intro vs
  induction vs generalizing p with
  | nil => simp [diffFill, diffRun]
  | cons v vs ih => simp [diffFill, diffRun, ih]

lemma diffFill_none_some :
    ∀ vs : List ℤ, diffFill none (vs.map some) = (pureDelta vs).map some := by
  intro vs
  cases vs with
  | nil => simp [diffFill, pureDelta]
  | cons v vs => simp [diffFill, pureDelta, diffFill_map_some]

lemma diffRun_sum_take :
    ∀ (vs : List ℤ) (p : ℤ) (i : ℕ) (h : i < vs.length),
      ((diffRun p vs).take (i + 1)).sum = vs.get ⟨i, h⟩ - p := by
  intro vs
  induction vs with
  | nil => intro p i h; simp at h
  | cons v vs ih =>
    intro p i h
    cases i with
    | zero => simp [diffRun]
    | succ j =>
      have hj : j < vs.length := by simpa using h
      simp only [diffRun, List.take_succ_cons, List.sum_cons, ih v j hj]
      simp [List.get]

lemma pureDelta_sum_take (vs : List ℤ) (i : ℕ) (h : i < vs.length) :
    ((pureDelta vs).take (i + 1)).sum = vs.get ⟨i, h⟩ := by
  cases vs with
  | nil => simp at h
  | cons v vs =>
    cases i with
    | zero => simp [pureDelta]
    | succ j =>
      have hj : j < vs.length := by simpa using h
      simp only [pureDelta, List.take_succ_cons, List.sum_cons, diffRun_sum_take vs v j hj]
      simp [List.get]

lemma diffFill_null_rule :
    ∀ (vs : List (Option ℤ)) (prev : Option ℤ) (i : ℕ),
      (vs[i]? = some none ∨ vs[i + 1]? = some none) →
      (diffFill prev vs)[i + 1]? = vs[i + 1]? := by
  intro vs
  induction vs with
  | nil => intro prev i _; simp [diffFill]
  | cons v vs ih =>
    intro prev i hnull
    cases i with
    | zero =>
      cases vs with
      | nil => simp [diffFill]
      | cons w ws =>
        rcases hnull with h0 | h1
        · have hv : v = none := by simpa using h0
          subst hv
          simp [diffFill]
        · have hw : w = none := by simpa using h1
          subst hw
          cases v <;> simp [diffFill, deltaCell_none_right]
    | succ j =>
      have : (diffFill v vs)[j + 1]? = vs[j + 1]? := by
        apply ih v j
        simpa using hnull
      simpa [diffFill] using this

/-! ### Grouped delta over a whole table (`groupby(keys).diff().fillna(value)`) -/

/-- The value of the last row before the current one that belongs to the key
group `k` (`none` when there is no such row, or when its value is `NaN`). -/
def prevVal {α κ : Type} [DecidableEq κ] (key : α → κ) (val : α → Option ℤ)
    (pre : List α) (k : κ) : Option ℤ :=
  ((pre.filter fun x => decide (key x = k)).getLast?).bind val

/-- Worker for `withDelta`: `pre` is the list of rows already emitted. -/
def withDeltaAux {α κ : Type} [DecidableEq κ] (key : α → κ) (val : α → Option ℤ) :
    List α → List α → List (α × Option ℤ)
  | _, [] => []
  | pre, r :: rs =>
    (r, deltaCell (prevVal key val pre (key r)) (val r)) :: withDeltaAux key val (pre ++ [r]) rs

/-- Each row of the table paired with its delta:
`df.groupby(keys)[metric].diff()` followed by
`fillna(df[metric])`, where `key` extracts the grouping key of a row and
`val` its metric value. -/
def withDelta {α κ : Type} [DecidableEq κ] (key : α → κ) (val : α → Option ℤ)
    (rows : List α) : List (α × Option ℤ) :=
  withDeltaAux key val [] rows

lemma prevVal_concat_pos {α κ : Type} [DecidableEq κ] (key : α → κ) (val : α → Option ℤ)
    (pre : List α) (r : α) (k : κ) (hk : key r = k) :
    prevVal key val (pre ++ [r]) k = val r := by
  simp [prevVal, List.filter_append, List.filter_cons, hk, List.getLast?_concat]

lemma prevVal_concat_neg {α κ : Type} [DecidableEq κ] (key : α → κ) (val : α → Option ℤ)
    (pre : List α) (r : α) (k : κ) (hk : ¬ key r = k) :
    prevVal key val (pre ++ [r]) k = prevVal key val pre k := by
  simp [prevVal, List.filter_append, List.filter_cons, hk]

lemma withDeltaAux_map_fst {α κ : Type} [DecidableEq κ] (key : α → κ) (val : α → Option ℤ) :
    ∀ (rows pre : List α), (withDeltaAux key val pre rows).map Prod.fst = rows := by
  intro rows
  induction rows with
  | nil => intro pre; simp [withDeltaAux]
  | cons r rs ih => intro pre; simp [withDeltaAux, ih]

lemma withDelta_map_fst {α κ : Type} [DecidableEq κ] (key : α → κ) (val : α → Option ℤ)
    (rows : List α) : (withDelta key val rows).map Prod.fst = rows :=
  withDeltaAux_map_fst key val rows []

/-- Restricting the grouped delta table to one key group gives exactly the
per-partition `diffFill` of the group's values. -/
lemma withDeltaAux_filter {α κ : Type} [DecidableEq κ] (key : α → κ) (val : α → Option ℤ)
    (k : κ) :
    ∀ (rows pre : List α),
      ((withDeltaAux key val pre rows).filter fun p => decide (key p.1 = k)).map Prod.snd
        = diffFill (prevVal key val pre k) ((rows.filter fun r => decide (key r = k)).map val) := by
  intro rows
  induction rows with
  | nil => intro pre; simp [withDeltaAux, diffFill]
  | cons r rs ih =>
    intro pre
    by_cases hk : key r = k
    · have h1 := ih (pre ++ [r])
      rw [prevVal_concat_pos key val pre r k hk] at h1
      simp only [withDeltaAux, List.filter_cons]
      simp [hk, diffFill, h1]
    · have h1 := ih (pre ++ [r])
      rw [prevVal_concat_neg key val pre r k hk] at h1
      simp only [withDeltaAux, List.filter_cons]
      simp [hk, h1]

lemma withDelta_filter {α κ : Type} [DecidableEq κ] (key : α → κ) (val : α → Option ℤ)
    (k : κ) (rows : List α) :
    ((withDelta key val rows).filter fun p => decide (key p.1 = k)).map Prod.snd
      = diffFill none ((rows.filter fun r => decide (key r = k)).map val) := by
  have h := withDeltaAux_filter key val k rows []
  simpa [withDelta, prevVal] using h

/-- The rows of one key group of the grouped delta table are the rows of
that key group of the underlying table. -/
lemma withDelta_filter_fst {α κ : Type} [DecidableEq κ] (key : α → κ) (val : α → Option ℤ)
    (k : κ) (rows : List α) :
    ((withDelta key val rows).filter fun p => decide (key p.1 = k)).map Prod.fst
      = rows.filter fun r => decide (key r = k) := by
  have h := List.filter_map (p := fun r => decide (key r = k)) (f := Prod.fst)
    (l := withDelta key val rows)
  rw [withDelta_map_fst] at h
  rw [h]
  rfl

/-- First row of a key group: its delta is its own value (the `fillna`). -/
lemma withDelta_filter_headEq {α κ : Type} [DecidableEq κ] (key : α → κ) (val : α → Option ℤ)
    (k : κ) (rows : List α) (p0 : α × Option ℤ)
    (h : ((withDelta key val rows).filter fun p => decide (key p.1 = k)).head? = some p0) :
    p0.2 = val p0.1 := by
  have hsnd := withDelta_filter key val k rows
  rw [← withDelta_filter_fst key val k rows, List.map_map] at hsnd
  set part := (withDelta key val rows).filter fun p => decide (key p.1 = k) with hpart
  cases hp : part with
  | nil => rw [hp] at h; simp at h
  | cons q t =>
    rw [hp] at h
    have hq : q = p0 := by simpa using h
    subst hq
    rw [hp] at hsnd
    simp only [List.map_cons, Function.comp, diffFill, deltaCell_none_left,
      List.cons.injEq] at hsnd
    exact hsnd.1

lemma map_some_getD (m : List ℤ) :
    (m.map some).map (fun o : Option ℤ => o.getD 0) = m := by
  induction m with
  | nil => simp
  | cons a t ih => simp [ih]

/-- One key group of a grouped delta table whose value column is total
(`some` everywhere): the delta column is `pureDelta` of the group's values. -/
lemma withDelta_partition_snd {α κ : Type} [DecidableEq κ] (key : α → κ) (f : α → ℤ)
    (rows : List α) (k : κ) :
    ((withDelta key (fun r => some (f r)) rows).filter fun p => decide (key p.1 = k)).map Prod.snd
      = (pureDelta (((withDelta key (fun r => some (f r)) rows).filter
          fun p => decide (key p.1 = k)).map fun p => f p.1)).map some := by
  have h := withDelta_filter key (fun r => some (f r)) k rows
  rw [← withDelta_filter_fst key (fun r => some (f r)) k rows, List.map_map] at h
  rw [h, ← diffFill_none_some]
  congr 1
  rw [List.map_map]
  rfl

lemma withDelta_partition_isSome {α κ : Type} [DecidableEq κ] (key : α → κ) (f : α → ℤ)
    (rows : List α) (k : κ) (p : α × Option ℤ)
    (hp : p ∈ (withDelta key (fun r => some (f r)) rows).filter
      fun p => decide (key p.1 = k)) :
    p.2.isSome = true := by
  have hmem : p.2 ∈ ((withDelta key (fun r => some (f r)) rows).filter
      fun p => decide (key p.1 = k)).map Prod.snd := List.mem_map_of_mem Prod.snd hp
  rw [withDelta_partition_snd] at hmem
  rcases List.mem_map.mp hmem with ⟨z, _, hz⟩
  rw [← hz]
  rfl

/-- Telescoping: within one key group the prefix sums of the delta column
reconstruct the value column. -/
lemma withDelta_partition_sum {α κ : Type} [DecidableEq κ] (key : α → κ) (f : α → ℤ)
    (rows : List α) (k : κ) (i : ℕ)
    (hi : i < ((withDelta key (fun r => some (f r)) rows).filter
      fun p => decide (key p.1 = k)).length) :
    ((((withDelta key (fun r => some (f r)) rows).filter
        fun p => decide (key p.1 = k)).take (i + 1)).map fun p => p.2.getD 0).sum
      = f (((withDelta key (fun r => some (f r)) rows).filter
          fun p => decide (key p.1 = k)).get ⟨i, hi⟩).1 := by
  set part := (withDelta key (fun r => some (f r)) rows).filter
    fun p => decide (key p.1 = k) with hpart
  have hsnd := withDelta_partition_snd key f rows k
  rw [← hpart] at hsnd
  have h1 : ((part.take (i + 1)).map fun p => p.2.getD 0).sum
      = (((part.map Prod.snd).take (i + 1)).map fun o : Option ℤ => o.getD 0).sum := by
    rw [← List.map_take, List.map_map]
    rfl
  rw [h1, hsnd, ← List.map_take, map_some_getD]
  have hvi : i < (part.map fun p => f p.1).length := by simpa using hi
  rw [pureDelta_sum_take _ i hvi]
  simp [List.get_eq_getElem, List.getElem_map]

/-! ### Key groups of block-structured tables -/

lemma filter_flatMap_nil {β γ : Type} (ds : List β) (blk : β → List γ) (p : γ → Bool)
    (hno : ∀ d ∈ ds, ∀ x ∈ blk d, p x = false) :
    (ds.flatMap blk).filter p = [] := by
  induction ds with
  | nil => simp
  | cons d t ih =>
    simp only [List.flatMap_cons, List.filter_append]
    rw [List.filter_eq_nil.mpr fun x hx => by simp [hno d (List.mem_cons_self d t) x hx],
      ih fun d' hd' x hx => hno d' (List.mem_cons_of_mem _ hd') x hx]
    rfl

/-- A `filter` over a table built as one block per distinct key, when the
predicate can only hold inside the block of `d0`, returns that block's
matches (and nothing when `d0` has no block). -/
lemma filter_flatMap_single {β γ : Type} [DecidableEq β] (ds : List β) (blk : β → List γ)
    (p : γ → Bool) (d0 : β) (hnd : ds.Nodup)
    (hno : ∀ d ∈ ds, d ≠ d0 → ∀ x ∈ blk d, p x = false) :
    (ds.flatMap blk).filter p = if d0 ∈ ds then (blk d0).filter p else [] := by
  induction ds with
  | nil => simp
  | cons d t ih =>
    rcases List.nodup_cons.mp hnd with ⟨hd, ht⟩
    simp only [List.flatMap_cons, List.filter_append]
    by_cases hdd : d = d0
    · subst hdd
      have hrest : (t.flatMap blk).filter p = [] :=
        filter_flatMap_nil t blk p fun d' hd' x hx =>
          hno d' (List.mem_cons_of_mem _ hd') (by rintro rfl; exact hd hd') x hx
      rw [hrest]
      simp
    · have hblk : (blk d).filter p = [] := List.filter_eq_nil.mpr fun x hx => by
        simp [hno d (List.mem_cons_self d t) hdd x hx]
      have hdd' : d0 ≠ d := fun h => hdd h.symm
      rw [hblk, ih ht fun d' hd' hne x hx => hno d' (List.mem_cons_of_mem _ hd') hne x hx]
      simp [List.mem_cons, hdd']

lemma nodup_filter_eq_le_one {β : Type} [DecidableEq β] (l : List β) (a : β) (h : l.Nodup) :
    (l.filter fun x => decide (x = a)).length ≤ 1 := by
  induction l with
  | nil => simp
  | cons x t ih =>
    rcases List.nodup_cons.mp h with ⟨hx, ht⟩
    by_cases hxa : x = a
    · subst hxa
      have hnil : t.filter (fun y => decide (y = x)) = [] :=
        List.filter_eq_nil.mpr fun y hy => by
          simp only [decide_eq_true_eq]
          rintro rfl
          exact hx hy
      simp [List.filter_cons, hnil]
    · simpa [List.filter_cons, hxa] using ih ht

lemma map_nodup_of_filter_le_one {β γ : Type} [DecidableEq γ] (l : List β) (g : β → γ)
    (h : ∀ k : γ, (l.filter fun x => decide (g x = k)).length ≤ 1) : (l.map g).Nodup := by
  induction l with
  | nil => simp
  | cons x t ih =>
    simp only [List.map_cons, List.nodup_cons]
    constructor
    · intro hmem
      rcases List.mem_map.mp hmem with ⟨y, hy, hgy⟩
      have h1 := h (g x)
      have hfx : (x :: t).filter (fun z => decide (g z = g x))
          = x :: t.filter fun z => decide (g z = g x) := by
        simp [List.filter_cons]
      rw [hfx] at h1
      have h2 : (t.filter fun z => decide (g z = g x)).length = 0 := by
        simp only [List.length_cons] at h1
        omega
      have hymem : y ∈ t.filter fun z => decide (g z = g x) :=
        List.mem_filter.mpr ⟨hy, by simp [hgy]⟩
      rw [List.length_eq_zero.mp h2] at hymem
      simp at hymem
    · apply ih
      intro k
      have h1 := h k
      calc (t.filter fun z => decide (g z = k)).length
          ≤ ((x :: t).filter fun z => decide (g z = k)).length := by
            by_cases hxk : g x = k <;> simp [List.filter_cons, hxk]
        _ ≤ 1 := h1

/-! ### Data model of `src/Hourly_Campaign_Dashboard.py`

An `Event` is one raw row of the campaign CSV after the time features of
lines 41-43 (`date` and `hour_index` derived from `timestamp`), restricted
to one selected metric (`value`); the script handles each selected metric
by an independent pass of the same code (lines 104, 135, 187).  A
`SaleRaw` is one row of the Amazon hourly sales CSV after the per-column
cleaning of lines 74-76 (`Hour` and `SP` coerced to numeric, so possibly
null). -/

structure Event where
  campaign : ℕ
  edate : ℕ
  hour_index : ℕ
  value : ℤ
  spend : ℤ
  budget : ℤ
  deriving DecidableEq

structure SaleRaw where
  sdate : ℕ
  hour : Option ℕ
  sp : Option ℤ
  deriving DecidableEq

/-- A row of `combined_hourly` before the merge (line 93): date, hour and
the summed metric. -/
structure CRow where
  cdate : ℕ
  hour_index : ℕ
  value : ℤ
  deriving DecidableEq

/-- A row of `amazon_hourly` (lines 77-78): date, hour and summed `SP`. -/
structure SaleAgg where
  adate : ℕ
  hour_index : ℕ
  sp : ℤ
  deriving DecidableEq

/-- A row of `combined_hourly` after the left merge with `amazon_hourly`
(line 100): the `SP` column is null when the key had no match. -/
structure MRow where
  mdate : ℕ
  hour_index : ℕ
  value : ℤ
  sp : Option ℤ
  deriving DecidableEq

/-- A row of `df_grouped` (lines 136-141): campaign, date, hour and the
summed metric. -/
structure GRow where
  gcampaign : ℕ
  gdate : ℕ
  hour_index : ℕ
  value : ℤ
  deriving DecidableEq

/-! ### The pipeline -/

/-- Lines 46-58: the metric catalog.  The `"ACOS"` entry is commented out
in the source (line 53), so the catalog has ten metrics and no `ACOS`. -/
def metric_descriptions : List (String × String) :=
  [("Spend", "How much money was spent on ads."),
   ("Impressions", "How many times the ad was shown."),
   ("Clicks", "How many people clicked the ad."),
   ("CTR", "Click-through rate: percentage of impressions that got clicks."),
   ("Orders", "How many orders were placed."),
   ("Sales", "Total revenue generated."),
   ("ROAS", "Return on Ad Spend (higher is better)."),
   ("CPC", "Average Cost per Click."),
   ("NTB orders", "New-to-brand customer orders."),
   ("vCTR", "Video Click-through Rate")]

/-- Line 60: `available_metrics = [m for m in metric_descriptions if m in df.columns]`. -/
def available_metrics (cols : List String) : List String :=
  (metric_descriptions.map Prod.fst).filter fun m => decide (m ∈ cols)

/-- ASCII lower-casing of one character (Python `str.lower` on the ASCII
column names involved). -/
def lowerChar (ch : Char) : Char :=
  if 'A' ≤ ch ∧ ch ≤ 'Z' then Char.ofNat (ch.toNat + 32) else ch

/-- Whether `pat` occurs at the head of `s`. -/
def headMatch : List Char → List Char → Bool
  | [], _ => true
  | _ :: _, [] => false
  | a :: as, b :: bs => a == b && headMatch as bs

/-- Whether `pat` occurs somewhere in `s` (Python `pat in s`). -/
def subMatch (pat : List Char) : List Char → Bool
  | [] => headMatch pat []
  | b :: bs => headMatch pat (b :: bs) || subMatch pat bs

/-- Line 61's comprehension test: `'campaign' in col.lower()`. -/
def containsCampaign (col : String) : Bool :=
  subMatch ("campaign".data) ((col.data).map lowerChar)

/-- Line 61: `campaign_column = [col for col in df.columns if 'campaign' in col.lower()][0]`.
The `[0]` of an empty comprehension raises (the spec's `SchemaError`);
failure is modelled as `none`. -/
def campaign_column (cols : List String) : Option String :=
  (cols.filter fun c => containsCampaign c).head?

/-- Lines 81-84: `df_filtered`, keeping rows whose campaign and date are
selected. -/
def filterRows (camps : List ℕ) (dates : List ℕ) (rows : List Event) : List Event :=
  rows.filter fun r => decide (r.campaign ∈ camps) && decide (r.edate ∈ dates)

def sumValues (l : List Event) : ℤ := (l.map fun r => r.value).sum

def spendSum (l : List Event) : ℤ := (l.map fun r => r.spend).sum

/-- Line 77's `['SP'].sum()`: pandas sums with `skipna=True`, so null
entries contribute nothing. -/
def spSum (l : List SaleRaw) : ℤ := (l.map fun r => (r.sp).getD 0).sum

/-- The rows of `combined_hourly` for one date `d`: one row per distinct
hour of that date (ascending), with the metric summed over the matching
raw rows. -/
def combinedBlock (rows : List Event) (d : ℕ) : List CRow :=
  (sortedDistinct ((rows.filter fun r => decide (r.edate = d)).map
      fun r => r.hour_index)).map fun h =>
    ⟨d, h, sumValues (rows.filter fun r => decide (r.edate = d ∧ r.hour_index = h))⟩

/-- Lines 93-95: `df_filtered.groupby(['date', 'hour_index'])[metric].sum()`
then sorted by `(date, hour_index)`; `groupby(sort=True)` already emits the
distinct keys in that order, one output row per key. -/
def combined_hourly (rows : List Event) : List CRow :=
  (sortedDistinct (rows.map fun r => r.edate)).flatMap (combinedBlock rows)

/-- The rows of `amazon_hourly` for one date `d`: one row per distinct
parsed hour of that date (ascending), with `SP` summed over the matching
raw rows. -/
def amazonBlock (rows : List SaleRaw) (d : ℕ) : List SaleAgg :=
  (sortedDistinct ((rows.filter fun r => decide (r.sdate = d)).filterMap
      fun r => r.hour)).map fun h =>
    ⟨d, h, spSum (rows.filter fun r => decide (r.sdate = d ∧ r.hour = some h))⟩

/-- Lines 74-78: `amazon_df.groupby(['Date', 'Hour'])['SP'].sum().reset_index()`
(then renamed to `date` / `hour_index`).  Rows whose `Hour` failed numeric
coercion have a null key and are dropped by `groupby`. -/
def amazon_hourly (rows : List SaleRaw) : List SaleAgg :=
  (sortedDistinct ((rows.filter fun r => (r.hour).isSome).map
      fun r => r.sdate)).flatMap (amazonBlock rows)

/-- Line 100: `pd.merge(combined_hourly, amazon_hourly, on=['date', 'hour_index'],
how='left')`.  Every left row is kept in order; each match in the right
table produces one output row, and a left row without a match gets a null
`SP`. -/
def merged_hourly : List CRow → List SaleAgg → List MRow
  | [], _ => []
  | r :: t, sec =>
    (match sec.filter fun s => decide (s.adate = r.cdate ∧ s.hour_index = r.hour_index) with
     | [] => [⟨r.cdate, r.hour_index, r.value, none⟩]
     | ms => ms.map fun s => ⟨r.cdate, r.hour_index, r.value, some s.sp⟩)
      ++ merged_hourly t sec

/-- The rows of `df_grouped` for one campaign and date: one row per
distinct hour (ascending), metric summed over the matching raw rows. -/
def groupedDateBlock (rows : List Event) (c : ℕ) (d : ℕ) : List GRow :=
  (sortedDistinct ((rows.filter fun r => decide (r.campaign = c ∧ r.edate = d)).map
      fun r => r.hour_index)).map fun h =>
    ⟨c, d, h, sumValues (rows.filter
      fun r => decide (r.campaign = c ∧ r.edate = d ∧ r.hour_index = h))⟩

/-- The rows of `df_grouped` for one campaign: its distinct dates
(ascending), each expanded to its hours. -/
def groupedCampBlock (rows : List Event) (c : ℕ) : List GRow :=
  (sortedDistinct ((rows.filter fun r => decide (r.campaign = c)).map
      fun r => r.edate)).flatMap (groupedDateBlock rows c)

/-- Lines 136-143: `df_filtered.groupby([campaign_column, 'date', 'hour_index'])[metric].sum()`
then sorted by `(campaign, date, hour_index)` (the `groupby` key order).
The summary `delta_table` of lines 184-185 is built by the same code. -/
def df_grouped (rows : List Event) : List GRow :=
  (sortedDistinct (rows.map fun r => r.campaign)).flatMap (groupedCampBlock rows)

/-- Lines 87-89: the budget step runs only when both `Spend` and `Budget`
columns exist; `cumulative_spend` is `groupby([campaign_column, 'date'])['Spend'].cumsum()`
(running sum within the group, in frame order) and
`budget_left = Budget - cumulative_spend` row-wise.  `pre` is the list of
rows already passed. -/
def withBudgetAux : List Event → List Event → List (Event × ℤ × ℤ)
  | _, [] => []
  | pre, r :: rs =>
    (r, spendSum ((pre ++ [r]).filter
        fun x => decide (x.campaign = r.campaign ∧ x.edate = r.edate)),
      r.budget - spendSum ((pre ++ [r]).filter
        fun x => decide (x.campaign = r.campaign ∧ x.edate = r.edate)))
      :: withBudgetAux (pre ++ [r]) rs

/-- Lines 87-89 as a whole: each row of `df_filtered`, with the
`(cumulative_spend, budget_left)` pair added when both columns exist and
left absent otherwise (the guard is on `df.columns`). -/
def budget_step (cols : List String) (rows : List Event) : List (Event × Option (ℤ × ℤ)) :=
  if "Spend" ∈ cols ∧ "Budget" ∈ cols then
    (withBudgetAux [] rows).map fun p => (p.1, some p.2)
  else rows.map fun r => (r, none)

/-- Lines 93-106: the combined hourly table with its per-metric delta
column, `groupby('date')[metric].diff()` filled back with the metric
column. -/
def combined_table (camps : List ℕ) (dates : List ℕ) (raw : List Event)
    (sraw : List SaleRaw) : List (MRow × Option ℤ) :=
  withDelta (fun m : MRow => m.mdate) (fun m => some m.value)
    (merged_hourly (combined_hourly (filterRows camps dates raw)) (amazon_hourly sraw))

/-- Lines 136-145: the per-campaign table with its delta column,
`groupby([campaign_column, 'date'])[metric].diff()` filled back with the
metric column (lines 187-189 build the same delta for the summary table). -/
def grouped_table (camps : List ℕ) (dates : List ℕ) (raw : List Event) :
    List (GRow × Option ℤ) :=
  withDelta (fun g : GRow => (g.gcampaign, g.gdate)) (fun g => some g.value)
    (df_grouped (filterRows camps dates raw))

/-- Lines 87-89 applied to `df_filtered`. -/
def budget_table (cols : List String) (camps : List ℕ) (dates : List ℕ)
    (raw : List Event) : List (Event × Option (ℤ × ℤ)) :=
  budget_step cols (filterRows camps dates raw)

/-! ### Structure of the aggregate tables -/

lemma combinedBlock_cdate (rows : List Event) (d : ℕ) (x : CRow)
    (hx : x ∈ combinedBlock rows d) : x.cdate = d := by
  rcases List.mem_map.mp hx with ⟨h, _, rfl⟩
  rfl

/-- Restricting `combined_hourly` to one date gives that date's block. -/
lemma combined_filter_date (rows : List Event) (d0 : ℕ) :
    (combined_hourly rows).filter (fun r => decide (r.cdate = d0))
      = if d0 ∈ sortedDistinct (rows.map fun r => r.edate)
        then combinedBlock rows d0 else [] := by
  have hsingle := filter_flatMap_single (sortedDistinct (rows.map fun r => r.edate))
    (combinedBlock rows) (fun r => decide (r.cdate = d0)) d0 (sortedDistinct_nodup _)
    (fun d _ hne x hx => by simp [combinedBlock_cdate rows d x hx, hne])
  unfold combined_hourly
  rw [hsingle]
  by_cases hmem : d0 ∈ sortedDistinct (rows.map fun r => r.edate)
  · rw [if_pos hmem, if_pos hmem]
    exact List.filter_eq_self.mpr fun x hx => by simp [combinedBlock_cdate rows d0 x hx]
  · rw [if_neg hmem, if_neg hmem]

lemma map_hour_combinedBlock (rows : List Event) (d : ℕ) :
    (combinedBlock rows d).map (fun r => r.hour_index)
      = sortedDistinct ((rows.filter fun r => decide (r.edate = d)).map
          fun r => r.hour_index) := by
  unfold combinedBlock
  rw [List.map_map]
  exact List.map_id' _

/-- The hours of one date group of `combined_hourly` are strictly
ascending. -/
lemma combined_hours_pairwise (rows : List Event) (d0 : ℕ) :
    (((combined_hourly rows).filter fun r => decide (r.cdate = d0)).map
      fun r => r.hour_index).Pairwise (· < ·) := by
  rw [combined_filter_date]
  by_cases hmem : d0 ∈ sortedDistinct (rows.map fun r => r.edate)
  · rw [if_pos hmem, map_hour_combinedBlock]
    exact sortedDistinct_pairwise _
  · rw [if_neg hmem]
    simp

lemma groupedDateBlock_key (rows : List Event) (c : ℕ) (d : ℕ) (x : GRow)
    (hx : x ∈ groupedDateBlock rows c d) : x.gcampaign = c ∧ x.gdate = d := by
  rcases List.mem_map.mp hx with ⟨h, _, rfl⟩
  exact ⟨rfl, rfl⟩

lemma groupedCampBlock_gcampaign (rows : List Event) (c : ℕ) (x : GRow)
    (hx : x ∈ groupedCampBlock rows c) : x.gcampaign = c := by
  rcases List.mem_flatMap.mp hx with ⟨d, _, hxd⟩
  exact (groupedDateBlock_key rows c d x hxd).1

/-- Restricting `df_grouped` to one (campaign, date) key gives that key's
block. -/
lemma grouped_filter_key (rows : List Event) (c0 : ℕ) (d0 : ℕ) :
    (df_grouped rows).filter (fun g => decide ((g.gcampaign, g.gdate) = (c0, d0)))
      = if c0 ∈ sortedDistinct (rows.map fun r => r.campaign) then
          if d0 ∈ sortedDistinct ((rows.filter fun r => decide (r.campaign = c0)).map
              fun r => r.edate)
          then groupedDateBlock rows c0 d0 else []
        else [] := by
  have houter := filter_flatMap_single (sortedDistinct (rows.map fun r => r.campaign))
    (groupedCampBlock rows) (fun g => decide ((g.gcampaign, g.gdate) = (c0, d0))) c0
    (sortedDistinct_nodup _)
    (fun c _ hne x hx => by
      simp [Prod.mk.injEq, groupedCampBlock_gcampaign rows c x hx, hne])
  unfold df_grouped
  rw [houter]
  by_cases hc : c0 ∈ sortedDistinct (rows.map fun r => r.campaign)
  · rw [if_pos hc, if_pos hc]
    have hinner := filter_flatMap_single
      (sortedDistinct ((rows.filter fun r => decide (r.campaign = c0)).map fun r => r.edate))
      (groupedDateBlock rows c0) (fun g => decide ((g.gcampaign, g.gdate) = (c0, d0))) d0
      (sortedDistinct_nodup _)
      (fun d _ hne x hx => by
        rcases groupedDateBlock_key rows c0 d x hx with ⟨h1, h2⟩
        simp [Prod.mk.injEq, h1, h2, hne])
    unfold groupedCampBlock
    rw [hinner]
    by_cases hd : d0 ∈ sortedDistinct ((rows.filter fun r => decide (r.campaign = c0)).map
        fun r => r.edate)
    · rw [if_pos hd, if_pos hd]
      exact List.filter_eq_self.mpr fun x hx => by
        rcases groupedDateBlock_key rows c0 d0 x hx with ⟨h1, h2⟩
        simp [Prod.mk.injEq, h1, h2]
    · rw [if_neg hd, if_neg hd]
  · rw [if_neg hc, if_neg hc]

lemma map_hour_groupedDateBlock (rows : List Event) (c : ℕ) (d : ℕ) :
    (groupedDateBlock rows c d).map (fun g => g.hour_index)
      = sortedDistinct ((rows.filter fun r => decide (r.campaign = c ∧ r.edate = d)).map
          fun r => r.hour_index) := by
  unfold groupedDateBlock
  rw [List.map_map]
  exact List.map_id' _

/-- The hours of one (campaign, date) group of `df_grouped` are strictly
ascending. -/
lemma grouped_hours_pairwise (rows : List Event) (c0 : ℕ) (d0 : ℕ) :
    (((df_grouped rows).filter fun g => decide ((g.gcampaign, g.gdate) = (c0, d0))).map
      fun g => g.hour_index).Pairwise (· < ·) := by
  rw [grouped_filter_key]
  by_cases hc : c0 ∈ sortedDistinct (rows.map fun r => r.campaign)
  · rw [if_pos hc]
    by_cases hd : d0 ∈ sortedDistinct ((rows.filter fun r => decide (r.campaign = c0)).map
        fun r => r.edate)
    · rw [if_pos hd, map_hour_groupedDateBlock]
      exact sortedDistinct_pairwise _
    · rw [if_neg hd]
      simp
  · rw [if_neg hc]
    simp

lemma amazonBlock_adate (rows : List SaleRaw) (d : ℕ) (x : SaleAgg)
    (hx : x ∈ amazonBlock rows d) : x.adate = d := by
  rcases List.mem_map.mp hx with ⟨h, _, rfl⟩
  rfl

/-- At most one row of `amazon_hourly` carries a given (date, hour) key. -/
lemma amazon_filter_le_one (rows : List SaleRaw) (d0 h0 : ℕ) :
    ((amazon_hourly rows).filter fun s => decide (s.adate = d0 ∧ s.hour_index = h0)).length
      ≤ 1 := by
  have hsingle := filter_flatMap_single
    (sortedDistinct ((rows.filter fun r => (r.hour).isSome).map fun r => r.sdate))
    (amazonBlock rows) (fun s => decide (s.adate = d0 ∧ s.hour_index = h0)) d0
    (sortedDistinct_nodup _)
    (fun d _ hne x hx => by simp [amazonBlock_adate rows d x hx, hne])
  unfold amazon_hourly
  rw [hsingle]
  by_cases hmem : d0 ∈ sortedDistinct ((rows.filter fun r => (r.hour).isSome).map
      fun r => r.sdate)
  · rw [if_pos hmem]
    unfold amazonBlock
    rw [List.filter_map, List.length_map]
    have hcongr : ((sortedDistinct ((rows.filter fun r => decide (r.sdate = d0)).filterMap
          fun r => r.hour)).filter
        ((fun s : SaleAgg => decide (s.adate = d0 ∧ s.hour_index = h0)) ∘ fun h =>
          (⟨d0, h, spSum (rows.filter fun r => decide (r.sdate = d0 ∧ r.hour = some h))⟩ :
            SaleAgg)))
        = ((sortedDistinct ((rows.filter fun r => decide (r.sdate = d0)).filterMap
            fun r => r.hour)).filter fun h => decide (h = h0)) := by
      apply List.filter_congr
      intro h _
      simp [Function.comp]
    rw [hcongr]
    exact nodup_filter_eq_le_one _ h0 (sortedDistinct_nodup _)
  · rw [if_neg hmem]
    simp

/-- The (date, hour) keys of `amazon_hourly` are pairwise distinct. -/
lemma amazon_keys_nodup (rows : List SaleRaw) :
    ((amazon_hourly rows).map fun s => (s.adate, s.hour_index)).Nodup := by
  apply map_nodup_of_filter_le_one
  intro k
  have hcongr : ((amazon_hourly rows).filter
        fun s => decide ((s.adate, s.hour_index) = k))
      = (amazon_hourly rows).filter
        fun s => decide (s.adate = k.1 ∧ s.hour_index = k.2) := by
    apply List.filter_congr
    intro s _
    cases k
    simp [Prod.mk.injEq]
  rw [hcongr]
  exact amazon_filter_le_one rows k.1 k.2

/-- The `SP` of an `amazon_hourly` row is the sum of the `SP` of the raw
sales rows with that key (nulls contributing nothing). -/
lemma amazon_mem_sp (rows : List SaleRaw) (s : SaleAgg) (hs : s ∈ amazon_hourly rows) :
    s.sp = spSum (rows.filter fun r => decide (r.sdate = s.adate ∧ r.hour = some s.hour_index)) := by
  rcases List.mem_flatMap.mp hs with ⟨d, _, hsd⟩
  rcases List.mem_map.mp hsd with ⟨h, _, rfl⟩
  rfl

/-- `amazon_hourly` has a row for a (date, hour) key exactly when some raw
sales row has that date and that (parsed) hour. -/
lemma amazon_mem_key_iff (rows : List SaleRaw) (d h : ℕ) :
    ((d, h) ∈ (amazon_hourly rows).map fun s => (s.adate, s.hour_index))
      ↔ ∃ r ∈ rows, r.sdate = d ∧ r.hour = some h := by
  constructor
  · intro hmem
    rcases List.mem_map.mp hmem with ⟨s, hs, hkey⟩
    rcases List.mem_flatMap.mp hs with ⟨d', _, hsd⟩
    rcases List.mem_map.mp hsd with ⟨h', hh', rfl⟩
    have hd : d' = d := congrArg Prod.fst hkey
    have hh : h' = h := congrArg Prod.snd hkey
    subst hd
    subst hh
    rw [mem_sortedDistinct] at hh'
    rcases List.mem_filterMap.mp hh' with ⟨r, hr, hrh⟩
    rcases List.mem_filter.mp hr with ⟨hrmem, hrd⟩
    exact ⟨r, hrmem, by simpa using hrd, hrh⟩
  · rintro ⟨r, hr, hrd, hrh⟩
    apply List.mem_map.mpr
    refine ⟨⟨d, h, spSum (rows.filter fun x => decide (x.sdate = d ∧ x.hour = some h))⟩,
      ?_, rfl⟩
    apply List.mem_flatMap.mpr
    refine ⟨d, ?_, ?_⟩
    · rw [mem_sortedDistinct]
      exact List.mem_map.mpr ⟨r, List.mem_filter.mpr ⟨hr, by simp [hrh]⟩, hrd⟩
    · unfold amazonBlock
      apply List.mem_map.mpr
      refine ⟨h, ?_, rfl⟩
      rw [mem_sortedDistinct]
      exact List.mem_filterMap.mpr ⟨r, List.mem_filter.mpr ⟨hr, by simp [hrd]⟩, hrh⟩

/-! ### Structure of the left merge -/

/-- When the right table has at most one row per key, the left merge keeps
every left row exactly once, in order, with all its fields. -/
lemma merged_map_key (prim : List CRow) (sec : List SaleAgg)
    (hsec : ∀ d h : ℕ,
      ((sec.filter fun s => decide (s.adate = d ∧ s.hour_index = h)).length ≤ 1)) :
    (merged_hourly prim sec).map (fun m => (m.mdate, m.hour_index, m.value))
      = prim.map fun r => (r.cdate, r.hour_index, r.value) := by
  induction prim with
  | nil => rfl
  | cons r t ih =>
    cases hm : sec.filter fun s => decide (s.adate = r.cdate ∧ s.hour_index = r.hour_index) with
    | nil =>
      simp only [merged_hourly, hm, List.map_append, List.map_cons, List.map_nil, ih]
      rfl
    | cons s ms =>
      have h1 := hsec r.cdate r.hour_index
      rw [hm] at h1
      have hms : ms = [] := by
        simp only [List.length_cons] at h1
        exact List.length_eq_zero.mp (by omega)
      subst hms
      simp only [merged_hourly, hm, List.map_append, List.map_cons, List.map_nil, ih]
      rfl

lemma merged_length (prim : List CRow) (sec : List SaleAgg)
    (hsec : ∀ d h : ℕ,
      ((sec.filter fun s => decide (s.adate = d ∧ s.hour_index = h)).length ≤ 1)) :
    (merged_hourly prim sec).length = prim.length := by
  have h := congrArg List.length (merged_map_key prim sec hsec)
  simpa using h

/-- A merged row whose key has no match in the right table carries a null
`SP`. -/
lemma merged_sp_none (prim : List CRow) (sec : List SaleAgg) (m : MRow)
    (hm : m ∈ merged_hourly prim sec)
    (hno : sec.filter (fun s => decide (s.adate = m.mdate ∧ s.hour_index = m.hour_index)) = []) :
    m.sp = none := by
  induction prim with
  | nil => simp [merged_hourly] at hm
  | cons r t ih =>
    rw [merged_hourly] at hm
    rcases List.mem_append.mp hm with hmb | hmr
    · cases hf : sec.filter fun s => decide (s.adate = r.cdate ∧ s.hour_index = r.hour_index) with
      | nil =>
        rw [hf] at hmb
        have : m = ⟨r.cdate, r.hour_index, r.value, none⟩ := by simpa using hmb
        rw [this]
      | cons s ms =>
        rw [hf] at hmb
        rcases List.mem_map.mp hmb with ⟨s', _, rfl⟩
        simp only at hno
        rw [hno] at hf
        cases hf
    · exact ih hmr

/-! ### Structure of the budget step -/

lemma withBudgetAux_getElem :
    ∀ (rows pre : List Event) (i : ℕ) (h : i < rows.length),
      (withBudgetAux pre rows)[i]? = some (rows.get ⟨i, h⟩,
        spendSum ((pre ++ rows.take (i + 1)).filter fun x =>
          decide (x.campaign = (rows.get ⟨i, h⟩).campaign ∧
            x.edate = (rows.get ⟨i, h⟩).edate)),
        (rows.get ⟨i, h⟩).budget -
          spendSum ((pre ++ rows.take (i + 1)).filter fun x =>
            decide (x.campaign = (rows.get ⟨i, h⟩).campaign ∧
              x.edate = (rows.get ⟨i, h⟩).edate))) := by
  intro rows
  induction rows with
  | nil => intro pre i h; simp at h
  | cons r rs ih =>
    intro pre i h
    cases i with
    | zero => simp [withBudgetAux]
    | succ j =>
      have hj : j < rs.length := by simpa using h
      have hrec := ih (pre ++ [r]) j hj
      simp only [withBudgetAux, List.getElem?_cons_succ]
      rw [hrec]
      simp [List.append_assoc]

/-! ### The two delta tables, partition by partition -/

lemma combined_table_filter_fst (camps : List ℕ) (dates : List ℕ) (raw : List Event)
    (sraw : List SaleRaw) (d : ℕ) :
    ((combined_table camps dates raw sraw).filter fun p => decide (p.1.mdate = d)).map Prod.fst
      = (merged_hourly (combined_hourly (filterRows camps dates raw))
          (amazon_hourly sraw)).filter fun m => decide (m.mdate = d) :=
  withDelta_filter_fst (fun m : MRow => m.mdate) (fun m => some m.value) d _

lemma grouped_table_filter_fst (camps : List ℕ) (dates : List ℕ) (raw : List Event)
    (c : ℕ) (cd : ℕ) :
    ((grouped_table camps dates raw).filter
        fun p => decide ((p.1.gcampaign, p.1.gdate) = (c, cd))).map Prod.fst
      = (df_grouped (filterRows camps dates raw)).filter
          fun g => decide ((g.gcampaign, g.gdate) = (c, cd)) :=
  withDelta_filter_fst (fun g : GRow => (g.gcampaign, g.gdate)) (fun g => some g.value) (c, cd) _

/-- The hour column of one date group of the merged table agrees with the
hour column of that date group before the merge. -/
lemma merged_partition_hours (prim : List CRow) (sec : List SaleAgg)
    (hsec : ∀ d h : ℕ,
      ((sec.filter fun s => decide (s.adate = d ∧ s.hour_index = h)).length ≤ 1))
    (d0 : ℕ) :
    ((merged_hourly prim sec).filter fun m => decide (m.mdate = d0)).map
        (fun m => m.hour_index)
      = (prim.filter fun r => decide (r.cdate = d0)).map fun r => r.hour_index := by
  have hM := merged_map_key prim sec hsec
  have h1 : ((merged_hourly prim sec).filter fun m => decide (m.mdate = d0)).map
      (fun m => m.hour_index)
      = (((merged_hourly prim sec).map fun m => (m.mdate, m.hour_index, m.value)).filter
          fun t => decide (t.1 = d0)).map fun t => t.2.1 := by
    rw [List.filter_map, List.map_map]
    rfl
  have h2 : (prim.filter fun r => decide (r.cdate = d0)).map (fun r => r.hour_index)
      = ((prim.map fun r => (r.cdate, r.hour_index, r.value)).filter
          fun t => decide (t.1 = d0)).map fun t => t.2.1 := by
    rw [List.filter_map, List.map_map]
    rfl
  rw [h1, h2, hM]

lemma combined_table_hours_pairwise (camps : List ℕ) (dates : List ℕ) (raw : List Event)
    (sraw : List SaleRaw) (d : ℕ) :
    (((combined_table camps dates raw sraw).filter fun p => decide (p.1.mdate = d)).map
      fun p => p.1.hour_index).Pairwise (· < ·) := by
  have hstep : ((combined_table camps dates raw sraw).filter
      fun p => decide (p.1.mdate = d)).map (fun p => p.1.hour_index)
      = (((combined_table camps dates raw sraw).filter
          fun p => decide (p.1.mdate = d)).map Prod.fst).map fun m => m.hour_index := by
    rw [List.map_map]
    rfl
  rw [hstep, combined_table_filter_fst,
    merged_partition_hours _ _ (fun d' h' => amazon_filter_le_one sraw d' h') d]
  exact combined_hours_pairwise _ d

lemma grouped_table_hours_pairwise (camps : List ℕ) (dates : List ℕ) (raw : List Event)
    (c : ℕ) (cd : ℕ) :
    (((grouped_table camps dates raw).filter
        fun p => decide ((p.1.gcampaign, p.1.gdate) = (c, cd))).map
      fun p => p.1.hour_index).Pairwise (· < ·) := by
  have hstep : ((grouped_table camps dates raw).filter
      fun p => decide ((p.1.gcampaign, p.1.gdate) = (c, cd))).map (fun p => p.1.hour_index)
      = (((grouped_table camps dates raw).filter
          fun p => decide ((p.1.gcampaign, p.1.gdate) = (c, cd))).map Prod.fst).map
          fun g => g.hour_index := by
    rw [List.map_map]
    rfl
  rw [hstep, grouped_table_filter_fst]
  exact grouped_hours_pairwise _ c cd

/-! ### The claims -/

/-- C1: in both delta tables (the combined per-date view and the
per-campaign view), every partition is listed with hours strictly
ascending, and the delta of the partition's first row equals that row's
aggregated metric value — a present (`some`) value, not zero, null or
undefined. -/
theorem c1_first_delta_is_value (camps : List ℕ) (dates : List ℕ) (raw : List Event)
    (sraw : List SaleRaw) (d : ℕ) (c : ℕ) (cd : ℕ)
    (p0 : MRow × Option ℤ) (q0 : GRow × Option ℤ)
    (h1 : ((combined_table camps dates raw sraw).filter
      fun p => decide (p.1.mdate = d)).head? = some p0)
    (h2 : ((grouped_table camps dates raw).filter
      fun p => decide ((p.1.gcampaign, p.1.gdate) = (c, cd))).head? = some q0) :
    p0.2 = some p0.1.value ∧ q0.2 = some q0.1.value
      ∧ (((combined_table camps dates raw sraw).filter
          fun p => decide (p.1.mdate = d)).map fun p => p.1.hour_index).Pairwise (· < ·)
      ∧ (((grouped_table camps dates raw).filter
          fun p => decide ((p.1.gcampaign, p.1.gdate) = (c, cd))).map
            fun p => p.1.hour_index).Pairwise (· < ·) :=
  ⟨withDelta_filter_headEq (fun m : MRow => m.mdate) (fun m => some m.value) d
      (merged_hourly (combined_hourly (filterRows camps dates raw)) (amazon_hourly sraw))
      p0 h1,
   withDelta_filter_headEq (fun g : GRow => (g.gcampaign, g.gdate)) (fun g => some g.value)
      (c, cd) (df_grouped (filterRows camps dates raw)) q0 h2,
   combined_table_hours_pairwise camps dates raw sraw d,
   grouped_table_hours_pairwise camps dates raw c cd⟩

/-- C2: in both delta tables every partition has all metric values present
(`some`), is listed with hours strictly ascending, and the prefix sums of
its delta column reconstruct the aggregated metric value at every
position. -/
theorem c2_delta_prefix_sums (camps : List ℕ) (dates : List ℕ) (raw : List Event)
    (sraw : List SaleRaw) (d : ℕ) (c : ℕ) (cd : ℕ) (i j : ℕ)
    (hi : i < ((combined_table camps dates raw sraw).filter
      fun p => decide (p.1.mdate = d)).length)
    (hj : j < ((grouped_table camps dates raw).filter
      fun p => decide ((p.1.gcampaign, p.1.gdate) = (c, cd))).length) :
    (∀ p ∈ (combined_table camps dates raw sraw).filter
      fun p => decide (p.1.mdate = d), p.2.isSome = true)
    ∧ (∀ p ∈ (grouped_table camps dates raw).filter
      fun p => decide ((p.1.gcampaign, p.1.gdate) = (c, cd)), p.2.isSome = true)
    ∧ ((((combined_table camps dates raw sraw).filter
        fun p => decide (p.1.mdate = d)).take (i + 1)).map fun p => p.2.getD 0).sum
      = (((combined_table camps dates raw sraw).filter
          fun p => decide (p.1.mdate = d)).get ⟨i, hi⟩).1.value
    ∧ ((((grouped_table camps dates raw).filter
        fun p => decide ((p.1.gcampaign, p.1.gdate) = (c, cd))).take (j + 1)).map
          fun p => p.2.getD 0).sum
      = (((grouped_table camps dates raw).filter
          fun p => decide ((p.1.gcampaign, p.1.gdate) = (c, cd))).get ⟨j, hj⟩).1.value :=
  ⟨fun p hp => withDelta_partition_isSome (fun m : MRow => m.mdate) (fun m => m.value)
      (merged_hourly (combined_hourly (filterRows camps dates raw)) (amazon_hourly sraw))
      d p hp,
   fun p hp => withDelta_partition_isSome (fun g : GRow => (g.gcampaign, g.gdate))
      (fun g => g.value) (df_grouped (filterRows camps dates raw)) (c, cd) p hp,
   withDelta_partition_sum (fun m : MRow => m.mdate) (fun m => m.value)
      (merged_hourly (combined_hourly (filterRows camps dates raw)) (amazon_hourly sraw))
      d i hi,
   withDelta_partition_sum (fun g : GRow => (g.gcampaign, g.gdate)) (fun g => g.value)
      (df_grouped (filterRows camps dates raw)) (c, cd) j hj⟩

/-- C3: when both the `Spend` and the `Budget` columns are present, row `i`
of the filtered table gets `cumulative_spend` equal to the sum of `Spend`
over the rows of its (campaign, date) partition up to and including `i`
(in appearance order), and `budget_left` equal to that row's own `Budget`
minus its `cumulative_spend`, exactly. -/
theorem c3_budget_columns (cols : List String) (camps : List ℕ) (dates : List ℕ) (raw : List Event)
    (i : ℕ) (hcols : "Spend" ∈ cols ∧ "Budget" ∈ cols)
    (h : i < (filterRows camps dates raw).length) :
    (budget_table cols camps dates raw)[i]?
      = some ((filterRows camps dates raw).get ⟨i, h⟩,
          some (spendSum (((filterRows camps dates raw).take (i + 1)).filter fun x =>
              decide (x.campaign = ((filterRows camps dates raw).get ⟨i, h⟩).campaign ∧
                x.edate = ((filterRows camps dates raw).get ⟨i, h⟩).edate)),
            ((filterRows camps dates raw).get ⟨i, h⟩).budget -
              spendSum (((filterRows camps dates raw).take (i + 1)).filter fun x =>
                decide (x.campaign = ((filterRows camps dates raw).get ⟨i, h⟩).campaign ∧
                  x.edate = ((filterRows camps dates raw).get ⟨i, h⟩).edate)))) := by
  unfold budget_table budget_step
  rw [if_pos hcols, List.getElem?_map,
    withBudgetAux_getElem (filterRows camps dates raw) [] i h]
  simp

/-- C4: merging the combined hourly aggregate with the aggregated sales
table is left-complete — whatever the raw sales feed, the merged table's
key and metric columns are exactly the primary table's, row for row (every
primary row appears exactly once, in order), and a merged row whose
(date, hour) key has no match in the aggregated sales table carries a null
`SP`. -/
theorem c4_merge_left_complete (camps : List ℕ) (dates : List ℕ) (raw : List Event)
    (sraw : List SaleRaw) (m : MRow)
    (hm : m ∈ merged_hourly (combined_hourly (filterRows camps dates raw))
      (amazon_hourly sraw))
    (hno : (amazon_hourly sraw).filter
      (fun s => decide (s.adate = m.mdate ∧ s.hour_index = m.hour_index)) = []) :
    ((merged_hourly (combined_hourly (filterRows camps dates raw))
          (amazon_hourly sraw)).map fun x => (x.mdate, x.hour_index, x.value))
      = ((combined_hourly (filterRows camps dates raw)).map
          fun r => (r.cdate, r.hour_index, r.value))
    ∧ m.sp = none :=
  ⟨merged_map_key _ _ fun d h => amazon_filter_le_one sraw d h,
   merged_sp_none _ _ m hm hno⟩

/-- C5 as written is false: the `"ACOS"` entry of `metric_descriptions` is
commented out (line 53), so a source whose columns include `ACOS` still
does not get `ACOS` as an available metric. -/
theorem c5_acos_counterexample : "ACOS" ∉ available_metrics ["ACOS"] := by decide

/-- C5 (amended): the available metrics are the intersection of the fixed
ten-entry catalog {Spend, Impressions, Clicks, CTR, Orders, Sales, ROAS,
CPC, NTB orders, vCTR} — which does not contain ACOS — with the source's
columns; in particular `ACOS` is never an available metric. -/
theorem c5_available_metrics (cols : List String) (m : String) :
    (m ∈ available_metrics cols ↔
      m ∈ ["Spend", "Impressions", "Clicks", "CTR", "Orders", "Sales", "ROAS", "CPC",
        "NTB orders", "vCTR"] ∧ m ∈ cols)
    ∧ "ACOS" ∉ available_metrics cols := by
  constructor
  · simp [available_metrics, metric_descriptions, List.mem_filter]
  · intro hmem
    rcases List.mem_filter.mp hmem with ⟨hcat, _⟩
    revert hcat
    simp [metric_descriptions]

/-- C6: the campaign column is the first column whose name contains the
substring `campaign` case-insensitively, and when no column matches the
lookup fails (the `[0]` on an empty comprehension — the spec's
`SchemaError`, modelled as `none`). -/
theorem c6_campaign_column (pre : List String) (c : String) (suf cols : List String)
    (hpre : ∀ x ∈ pre, containsCampaign x = false)
    (hc : containsCampaign c = true)
    (hnone : ∀ x ∈ cols, containsCampaign x = false) :
    campaign_column (pre ++ c :: suf) = some c ∧ campaign_column cols = none := by
  constructor
  · unfold campaign_column
    rw [List.filter_append,
      List.filter_eq_nil.mpr fun x hx => by simp [hpre x hx],
      List.nil_append, List.filter_cons, if_pos hc]
    rfl
  · unfold campaign_column
    rw [List.filter_eq_nil.mpr fun x hx => by simp [hnone x hx]]
    rfl

/-- C7: when the `Spend` column or the `Budget` column is absent, the
budget step does nothing at all — no `cumulative_spend`/`budget_left`
fields are added, and the rows are otherwise exactly the input rows. -/
theorem c7_budget_skipped (cols : List String) (rows : List Event)
    (h : "Spend" ∉ cols ∨ "Budget" ∉ cols) :
    budget_step cols rows = rows.map (fun r => (r, none))
    ∧ (budget_step cols rows).map Prod.fst = rows := by
  have hcond : ¬("Spend" ∈ cols ∧ "Budget" ∈ cols) := by tauto
  refine ⟨?_, ?_⟩
  · unfold budget_step
    rw [if_neg hcond]
  · unfold budget_step
    rw [if_neg hcond, List.map_map]
    exact List.map_id' _

/-- C8: the whole pipeline factors through the filtered table — two raw
inputs with the same filtered rows (for the same selected campaigns and
dates) produce identical combined, per-campaign and budget tables. -/
theorem c8_filter_consistency (cols : List String) (camps : List ℕ) (dates : List ℕ)
    (raw1 raw2 : List Event) (sraw : List SaleRaw)
    (h : filterRows camps dates raw1 = filterRows camps dates raw2) :
    combined_table camps dates raw1 sraw = combined_table camps dates raw2 sraw
    ∧ grouped_table camps dates raw1 = grouped_table camps dates raw2
    ∧ budget_table cols camps dates raw1 = budget_table cols camps dates raw2 := by
  unfold combined_table grouped_table budget_table
  rw [h]
  exact ⟨rfl, rfl, rfl⟩

/-- C9: duplicate (date, hour) keys of the raw sales feed are resolved by
summation before the merge — the aggregated sales table has pairwise
distinct keys, one row per key of the parseable raw rows, each carrying
the sum of the matching raw `SP` values, so the left merge never
duplicates a primary row. -/
theorem c9_sales_dedup (sraw : List SaleRaw) (prim : List CRow) (s : SaleAgg)
    (hs : s ∈ amazon_hourly sraw) :
    ((amazon_hourly sraw).map fun x => (x.adate, x.hour_index)).Nodup
    ∧ s.sp = spSum (sraw.filter
        fun r => decide (r.sdate = s.adate ∧ r.hour = some s.hour_index))
    ∧ (∀ d h : ℕ, ((d, h) ∈ (amazon_hourly sraw).map fun x => (x.adate, x.hour_index))
        ↔ ∃ r ∈ sraw, r.sdate = d ∧ r.hour = some h)
    ∧ (merged_hourly prim (amazon_hourly sraw)).length = prim.length :=
  ⟨amazon_keys_nodup sraw, amazon_mem_sp sraw s hs,
   fun d h => amazon_mem_key_iff sraw d h,
   merged_length prim _ fun d h => amazon_filter_le_one sraw d h⟩

/-- C10: the fill-back applies to every null delta, not only at partition
boundaries — in any grouped delta table, at any position of a partition
whose own value or predecessor value is null, the delta equals that
position's raw value (not a numeric difference). -/
theorem c10_fillback_on_null {α κ : Type} [DecidableEq κ] (key : α → κ) (val : α → Option ℤ)
    (rows : List α) (k : κ) (i : ℕ)
    (hnull : (((withDelta key val rows).filter fun p => decide (key p.1 = k)).map
        fun p => val p.1)[i]? = some none
      ∨ (((withDelta key val rows).filter fun p => decide (key p.1 = k)).map
          fun p => val p.1)[i + 1]? = some none) :
    (((withDelta key val rows).filter fun p => decide (key p.1 = k)).map Prod.snd)[i + 1]?
      = (((withDelta key val rows).filter fun p => decide (key p.1 = k)).map
          fun p => val p.1)[i + 1]? := by
  have hsnd := withDelta_filter key val k rows
  rw [← withDelta_filter_fst key val k rows, List.map_map] at hsnd
  have hvv : ((withDelta key val rows).filter fun p => decide (key p.1 = k)).map
      (val ∘ Prod.fst)
      = ((withDelta key val rows).filter fun p => decide (key p.1 = k)).map
        fun p => val p.1 := rfl
  rw [hvv] at hsnd
  rw [hsnd]
  exact diffFill_null_rule _ none i hnull

/-! ### Concrete sample data for the witnesses -/

def wEvA0 : Event := ⟨1, 1, 0, 10, 10, 100⟩

def wEvA1 : Event := ⟨1, 1, 1, 15, 15, 100⟩

def wEvB : Event := ⟨2, 2, 3, 7, 7, 50⟩

theorem c1_first_delta_witness :
    (((combined_table [1] [1] [wEvA1, wEvA0] []).filter
        fun p => decide (p.1.mdate = 1)).head? = some (⟨1, 0, 10, none⟩, some 10))
    ∧ (((grouped_table [1] [1] [wEvA1, wEvA0]).filter
        fun p => decide ((p.1.gcampaign, p.1.gdate) = (1, 1))).head?
          = some (⟨1, 1, 0, 10⟩, some 10))
    ∧ ((some 10 : Option ℤ) = some (10 : ℤ) ∧ (some 10 : Option ℤ) = some (10 : ℤ)
        ∧ (((combined_table [1] [1] [wEvA1, wEvA0] []).filter
            fun p => decide (p.1.mdate = 1)).map fun p => p.1.hour_index).Pairwise (· < ·)
        ∧ (((grouped_table [1] [1] [wEvA1, wEvA0]).filter
            fun p => decide ((p.1.gcampaign, p.1.gdate) = (1, 1))).map
              fun p => p.1.hour_index).Pairwise (· < ·)) :=
  ⟨by decide, by decide,
   c1_first_delta_is_value [1] [1] [wEvA1, wEvA0] [] 1 1 1
     (⟨1, 0, 10, none⟩, some 10) (⟨1, 1, 0, 10⟩, some 10) (by decide) (by decide)⟩

theorem c2_delta_prefix_sums_witness :
    (1 < ((combined_table [1] [1] [wEvA1, wEvA0] []).filter
      fun p => decide (p.1.mdate = 1)).length)
    ∧ (1 < ((grouped_table [1] [1] [wEvA1, wEvA0]).filter
      fun p => decide ((p.1.gcampaign, p.1.gdate) = (1, 1))).length)
    ∧ ((∀ p ∈ (combined_table [1] [1] [wEvA1, wEvA0] []).filter
        fun p => decide (p.1.mdate = 1), p.2.isSome = true)
      ∧ (∀ p ∈ (grouped_table [1] [1] [wEvA1, wEvA0]).filter
        fun p => decide ((p.1.gcampaign, p.1.gdate) = (1, 1)), p.2.isSome = true)
      ∧ ((((combined_table [1] [1] [wEvA1, wEvA0] []).filter
          fun p => decide (p.1.mdate = 1)).take 2).map fun p => p.2.getD 0).sum
        = (((combined_table [1] [1] [wEvA1, wEvA0] []).filter
            fun p => decide (p.1.mdate = 1)).get ⟨1, by decide⟩).1.value
      ∧ ((((grouped_table [1] [1] [wEvA1, wEvA0]).filter
          fun p => decide ((p.1.gcampaign, p.1.gdate) = (1, 1))).take 2).map
            fun p => p.2.getD 0).sum
        = (((grouped_table [1] [1] [wEvA1, wEvA0]).filter
            fun p => decide ((p.1.gcampaign, p.1.gdate) = (1, 1))).get
              ⟨1, by decide⟩).1.value) :=
  ⟨by decide, by decide,
   c2_delta_prefix_sums [1] [1] [wEvA1, wEvA0] [] 1 1 1 1 1 (by decide) (by decide)⟩

theorem c3_budget_columns_witness :
    ("Spend" ∈ ["Spend", "Budget"] ∧ "Budget" ∈ ["Spend", "Budget"])
    ∧ (1 < (filterRows [1] [1] [wEvA0, wEvA1]).length)
    ∧ (budget_table ["Spend", "Budget"] [1] [1] [wEvA0, wEvA1])[1]?
      = some (⟨1, 1, 1, 15, 15, 100⟩, some (25, 75)) :=
  ⟨by decide, by decide,
   c3_budget_columns ["Spend", "Budget"] [1] [1] [wEvA0, wEvA1] 1 (by decide) (by decide)⟩

theorem c4_merge_left_complete_witness :
    ((⟨1, 0, 10, none⟩ : MRow) ∈ merged_hourly (combined_hourly (filterRows [1] [1] [wEvA0]))
      (amazon_hourly []))
    ∧ ((amazon_hourly []).filter
        (fun s => decide (s.adate = (⟨1, 0, 10, none⟩ : MRow).mdate ∧
          s.hour_index = (⟨1, 0, 10, none⟩ : MRow).hour_index)) = [])
    ∧ (((merged_hourly (combined_hourly (filterRows [1] [1] [wEvA0]))
          (amazon_hourly [])).map fun x => (x.mdate, x.hour_index, x.value))
        = ((combined_hourly (filterRows [1] [1] [wEvA0])).map
            fun r => (r.cdate, r.hour_index, r.value))
      ∧ (⟨1, 0, 10, none⟩ : MRow).sp = none) :=
  ⟨by decide, by decide,
   c4_merge_left_complete [1] [1] [wEvA0] [] ⟨1, 0, 10, none⟩ (by decide) (by decide)⟩

theorem c5_available_metrics_witness :
    ("Spend" ∈ available_metrics ["ACOS", "Spend"] ↔
      "Spend" ∈ ["Spend", "Impressions", "Clicks", "CTR", "Orders", "Sales", "ROAS", "CPC",
        "NTB orders", "vCTR"] ∧ "Spend" ∈ ["ACOS", "Spend"])
    ∧ "ACOS" ∉ available_metrics ["ACOS", "Spend"] :=
  c5_available_metrics ["ACOS", "Spend"] "Spend"

theorem c6_campaign_column_witness :
    (∀ x ∈ ["timestamp"], containsCampaign x = false)
    ∧ containsCampaign "Campaign Name" = true
    ∧ (∀ x ∈ ["timestamp", "Spend"], containsCampaign x = false)
    ∧ (campaign_column (["timestamp"] ++ "Campaign Name" :: ["Spend"]) = some "Campaign Name"
      ∧ campaign_column ["timestamp", "Spend"] = none) :=
  ⟨by decide, by decide, by decide,
   c6_campaign_column ["timestamp"] "Campaign Name" ["Spend"] ["timestamp", "Spend"]
     (by decide) (by decide) (by decide)⟩

theorem c7_budget_skipped_witness :
    ("Spend" ∉ ["timestamp"] ∨ "Budget" ∉ ["timestamp"])
    ∧ (budget_step ["timestamp"] [wEvA0] = [wEvA0].map (fun r => (r, none))
      ∧ (budget_step ["timestamp"] [wEvA0]).map Prod.fst = [wEvA0]) :=
  ⟨by decide, c7_budget_skipped ["timestamp"] [wEvA0] (by decide)⟩

theorem c8_filter_consistency_witness :
    (filterRows [1] [1] [wEvA0, wEvB] = filterRows [1] [1] [wEvA0])
    ∧ (combined_table [1] [1] [wEvA0, wEvB] [] = combined_table [1] [1] [wEvA0] []
      ∧ grouped_table [1] [1] [wEvA0, wEvB] = grouped_table [1] [1] [wEvA0]
      ∧ budget_table ["Spend", "Budget"] [1] [1] [wEvA0, wEvB]
        = budget_table ["Spend", "Budget"] [1] [1] [wEvA0]) :=
  ⟨by decide,
   c8_filter_consistency ["Spend", "Budget"] [1] [1] [wEvA0, wEvB] [wEvA0] [] (by decide)⟩

theorem c9_sales_dedup_witness :
    ((⟨1, 2, 7⟩ : SaleAgg) ∈ amazon_hourly [⟨1, some 2, some 3⟩, ⟨1, some 2, some 4⟩])
    ∧ (((amazon_hourly [⟨1, some 2, some 3⟩, ⟨1, some 2, some 4⟩]).map
          fun x => (x.adate, x.hour_index)).Nodup
      ∧ (⟨1, 2, 7⟩ : SaleAgg).sp = spSum ([⟨1, some 2, some 3⟩, ⟨1, some 2, some 4⟩].filter
          fun r => decide (r.sdate = (⟨1, 2, 7⟩ : SaleAgg).adate ∧
            r.hour = some (⟨1, 2, 7⟩ : SaleAgg).hour_index))
      ∧ (∀ d h : ℕ, ((d, h) ∈ (amazon_hourly [⟨1, some 2, some 3⟩, ⟨1, some 2, some 4⟩]).map
            fun x => (x.adate, x.hour_index))
          ↔ ∃ r ∈ [(⟨1, some 2, some 3⟩ : SaleRaw), ⟨1, some 2, some 4⟩],
              r.sdate = d ∧ r.hour = some h)
      ∧ (merged_hourly [⟨1, 2, 5⟩]
          (amazon_hourly [⟨1, some 2, some 3⟩, ⟨1, some 2, some 4⟩])).length
        = [(⟨1, 2, 5⟩ : CRow)].length) :=
  ⟨by decide,
   c9_sales_dedup [⟨1, some 2, some 3⟩, ⟨1, some 2, some 4⟩] [⟨1, 2, 5⟩] ⟨1, 2, 7⟩
     (by decide)⟩

theorem c10_fillback_on_null_witness :
    ((((withDelta Prod.fst Prod.snd
          [((1 : ℕ), some (1 : ℤ)), (1, none), (1, some 5)]).filter
        fun p => decide (p.1.1 = 1)).map fun p => p.1.2)[1]? = some none
      ∨ (((withDelta Prod.fst Prod.snd
          [((1 : ℕ), some (1 : ℤ)), (1, none), (1, some 5)]).filter
        fun p => decide (p.1.1 = 1)).map fun p => p.1.2)[2]? = some none)
    ∧ (((withDelta Prod.fst Prod.snd
          [((1 : ℕ), some (1 : ℤ)), (1, none), (1, some 5)]).filter
        fun p => decide (p.1.1 = 1)).map Prod.snd)[2]?
      = (((withDelta Prod.fst Prod.snd
          [((1 : ℕ), some (1 : ℤ)), (1, none), (1, some 5)]).filter
        fun p => decide (p.1.1 = 1)).map fun p => p.1.2)[2]? :=
  ⟨by decide,
   c10_fillback_on_null Prod.fst Prod.snd [((1 : ℕ), some (1 : ℤ)), (1, none), (1, some 5)]
     1 1 (by decide)⟩

end HourlyDashboard
